import Mathlib

/-!
Verification development for the climate-change Wikipedia dashboard
(`app2.py`).  The single computational pipeline of the script —
filter → sort → pivot → aggregate — is shallowly embedded below.
Records are rows of the loaded tabular dataset; all machine arithmetic
in the script is integer counting (article counts), embedded as `Nat`,
with percentages computed in exact rational arithmetic and rounding
modelled as round-half-to-even (the rounding used by the numeric
library the script calls).
-/

/-- One row of the source dataset: a language code, a subtopic name and an
article count (non-negative integer). -/
structure Record where
  language_code : String
  subtopic : String
  article_count : Nat
deriving Repr, DecidableEq

/-- The static language catalog `lang_map` of the script, in source order:
language code to display name, fixed at 10 entries. -/
def lang_map : List (String × String) :=
  [("en", "English"), ("ar", "Arabic"), ("fr", "French"), ("es", "Spanish"),
   ("de", "German"), ("pt", "Portuguese"), ("zh", "Chinese"), ("ru", "Russian"),
   ("uk", "Ukrainian"), ("it", "Italian")]

/-- The fixed canonical language sequence `top10_langs` used for default ordering. -/
def top10_langs : List String :=
  ["en", "ar", "fr", "es", "de", "pt", "zh", "ru", "uk", "it"]

/-- Display name with raw-code fallback: `lang_map.get(x, x)`. -/
def displayName (x : String) : String := (lang_map.lookup x).getD x

/-- Selector option label built at line 64 of the script:
`f"{lang_map.get(x, x)} ({x})"`. -/
def selectorOptionLabel (x : String) : String := displayName x ++ " (" ++ x ++ ")"

/-- Summary-table row label built at line 254 of the script:
`f"{lang_map.get(x, x)} ({x})"`. -/
def summaryRowLabel (x : String) : String := displayName x ++ " (" ++ x ++ ")"

/-- Chart axis language name, line 161: `df_plot['language_code'].map(lang_map)`.
A dictionary `.map` yields a missing value (NaN) for keys absent from the
dictionary, embedded here as `none`. -/
def chartLanguageName (x : String) : Option String := lang_map.lookup x

/-- Helper for first-seen deduplication, carrying the set of codes already seen. -/
def dedupFirstAux (seen : List String) : List String → List String
  | [] => []
  | x :: xs =>
    if seen.contains x then dedupFirstAux seen xs
    else x :: dedupFirstAux (x :: seen) xs

/-- First-seen-order deduplication, the behaviour of `Series.unique()`. -/
def dedupFirst (l : List String) : List String := dedupFirstAux [] l

/-- Distinct language codes present in the data, first-seen order
(`df['language_code'].unique()`). -/
def availableLanguages (recs : List Record) : List String :=
  dedupFirst (recs.map (·.language_code))

/-- Distinct subtopics present in the data, first-seen order
(`df['subtopic'].unique()`). -/
def availableSubtopics (recs : List Record) : List String :=
  dedupFirst (recs.map (·.subtopic))

/-- Characters up to (excluding) the first occurrence of `c`. -/
def takeUntilChar (c : Char) : List Char → List Char
  | [] => []
  | d :: ds => if d = c then [] else d :: takeUntilChar c ds

/-- Characters after the first occurrence of `c`. -/
def dropThroughChar (c : Char) : List Char → List Char
  | [] => []
  | d :: ds => if d = c then ds else dropThroughChar c ds

/-- Language-code extraction from a combined label, line 76 of the script:
`selected_language.split('(')[1].split(')')[0]`, i.e. the text between the
first opening parenthesis and the following closing parenthesis. -/
def extractLangCode (s : String) : String :=
  String.mk (takeUntilChar ')' (dropThroughChar '(' s.data))

/-- Resolution of the language selector (lines 72-77): the sentinel
"All Languages" expands to every distinct code in the data, any other
choice becomes the singleton of its extracted code. -/
def resolveLanguageSelection (recs : List Record) (sel : String) : List String :=
  if sel = "All Languages" then availableLanguages recs else [extractLangCode sel]

/-- Resolution of the subtopic selector (lines 90-93). -/
def resolveSubtopicSelection (recs : List Record) (sel : String) : List String :=
  if sel = "All Subtopics" then availableSubtopics recs else [sel]

/-- Sort modes of the sort selector. -/
inductive SortMode
  | Default
  | TotalDescending
  | TotalAscending
deriving Repr, DecidableEq

/-- Chart modes of the chart-type selector. -/
inductive ChartMode
  | Stacked
  | Grouped
  | PercentStacked
deriving Repr, DecidableEq

/-- Error kinds of the pipeline; the pivot integrity failure is the one the
numeric pipeline can actually raise. -/
inductive AppError
  | DuplicateKeyError
  | InvalidOptionError
deriving Repr, DecidableEq

/-- Dispatch on the sort-option string (lines 120-141): the two recognized
total-sort strings select their modes, every other string falls into the
final `else` branch, i.e. default ordering. -/
def resolveSortMode (s : String) : SortMode :=
  if s = "Total Articles (Descending)" then SortMode.TotalDescending
  else if s = "Total Articles (Ascending)" then SortMode.TotalAscending
  else SortMode.Default

/-- Dispatch on the chart-type string (lines 172-198): `if "Stacked Bar" …
elif "Grouped Bar" … else` percentage-stacked. -/
def resolveChartMode (s : String) : ChartMode :=
  if s = "Stacked Bar" then ChartMode.Stacked
  else if s = "Grouped Bar" then ChartMode.Grouped
  else ChartMode.PercentStacked

/-- Filtering step (lines 114-117): keep records whose language and subtopic
are both selected. -/
def filterRecords (recs : List Record) (selLangs selSubs : List String) : List Record :=
  recs.filter fun r => selLangs.contains r.language_code && selSubs.contains r.subtopic

/-- Rows of one language (the groupby group of `language_code`). -/
def langRows (recs : List Record) (l : String) : List Record :=
  recs.filter fun r => r.language_code == l

/-- Per-language total article count over the given records
(`groupby('language_code')['article_count'].sum()`). -/
def langTotal (recs : List Record) (l : String) : Nat :=
  ((langRows recs l).map (·.article_count)).sum

/-- The (language_code, subtopic) key of each record, in order. -/
def keyPairs (recs : List Record) : List (String × String) :=
  recs.map fun r => (r.language_code, r.subtopic)

/-- Duplicate-key test: the pivot of line 146 raises exactly when the
(index, columns) key pairs are not unique. -/
def hasDupKeys (recs : List Record) : Bool :=
  !(decide (keyPairs recs).Nodup)

/-- Records matching one (language, subtopic) cell. -/
def matchesAt (recs : List Record) (l s : String) : List Record :=
  recs.filter fun r => r.language_code == l && r.subtopic == s

/-- Cell of the zero-filled wide frame (lines 146-148): the matching record's
count, `0` where the combination is absent (`fillna(0)`). -/
def wideCell (recs : List Record) (l s : String) : Nat :=
  ((matchesAt recs l s).map (·.article_count)).headD 0

/-- Row keys of the wide frame: distinct languages of the pivoted records. -/
def wideRows (recs : List Record) : List String :=
  dedupFirst (recs.map (·.language_code))

/-- Column keys of the wide frame: distinct subtopics of the pivoted records. -/
def wideCols (recs : List Record) : List String :=
  dedupFirst (recs.map (·.subtopic))

/-- Cell of the summary pivot table (lines 247-252), whose aggregation
function is the mean, with `fill_value=0` for absent combinations. -/
def pivotTableCell (recs : List Record) (l s : String) : ℚ :=
  let m := matchesAt recs l s
  if m.length = 0 then 0
  else (((m.map (·.article_count)).sum : ℚ)) / (m.length : ℚ)

/-- Total column of the summary table (line 253): row-wise sum over the
summary table's subtopic columns. -/
def summaryTotal (recs : List Record) (l : String) : ℚ :=
  ((wideCols recs).map fun s => pivotTableCell recs l s).sum

/-- Pivot step of the Transformer (line 146): fails when the filtered records
contain duplicate (language_code, subtopic) keys, otherwise produces the
zero-filled wide grid. -/
def transformerPivot (recs : List Record) : Except AppError (List (List Nat)) :=
  if hasDupKeys recs then Except.error AppError.DuplicateKeyError
  else Except.ok ((wideRows recs).map fun l => (wideCols recs).map fun s => wideCell recs l s)

/-- The table-producing part of one render cycle in script order: the wide
pivot of line 146 runs first; the summary table of lines 247-253 is only
reached when the pivot succeeded. -/
def scriptTables (recs : List Record) :
    Except AppError (List (List Nat) × List (String × ℚ)) := do
  let w ← transformerPivot recs
  Except.ok (w, (wideRows recs).map fun l => (l, summaryTotal recs l))

/-- Lexicographic order on character lists by code point, the sort order the
grouping operation applies to its string keys. -/
def charListLe : List Char → List Char → Bool
  | [], _ => true
  | _ :: _, [] => false
  | c :: cs, d :: ds =>
    if c.toNat < d.toNat then true
    else if d.toNat < c.toNat then false
    else charListLe cs ds

/-- Lexicographic order on strings. -/
def strLeB (a b : String) : Bool := charListLe a.data b.data

/-- Comparator of the descending total sort: earlier means larger total. -/
def valueDescLe (a b : String × Nat) : Bool := decide (b.2 ≤ a.2)

/-- Comparator of the ascending total sort. -/
def valueAscLe (a b : String × Nat) : Bool := decide (a.2 ≤ b.2)

/-- Insertion of one element into a sorted list, keeping the inserted
element before later equal elements (stable insertion). -/
def insertLe {α : Type} (le : α → α → Bool) (x : α) : List α → List α
  | [] => [x]
  | y :: ys => if le x y then x :: y :: ys else y :: insertLe le x ys

/-- Stable insertion sort: the model of the library's stable value sort. -/
def isort {α : Type} (le : α → α → Bool) : List α → List α
  | [] => []
  | x :: xs => insertLe le x (isort le xs)

/-- Per-language totals as produced by
`groupby('language_code')['article_count'].sum()`: keys in ascending
lexicographic order, each with its total. -/
def groupTotals (recs : List Record) : List (String × Nat) :=
  (isort strLeB (availableLanguages recs)).map fun l => (l, langTotal recs l)

/-- Grouped totals after `sort_values(ascending=False)`. -/
def orderedTotalsDesc (recs : List Record) : List (String × Nat) :=
  isort valueDescLe (groupTotals recs)

/-- Grouped totals after `sort_values(ascending=True)`. -/
def orderedTotalsAsc (recs : List Record) : List (String × Nat) :=
  isort valueAscLe (groupTotals recs)

/-- Language order under the descending total sort (line 121). -/
def langOrderTotalDesc (recs : List Record) : List String :=
  (orderedTotalsDesc recs).map (·.1)

/-- Language order under the ascending total sort (line 128). -/
def langOrderTotalAsc (recs : List Record) : List String :=
  (orderedTotalsAsc recs).map (·.1)

/-- Language order under the default sort (lines 136-141):
`[l for l in top10_langs if l in selected_languages]`. -/
def langOrderDefault (selected : List String) : List String :=
  top10_langs.filter fun l => selected.contains l

/-- Round a / b to the nearest integer with ties to even, for b > 0: the
rounding rule of the numeric library's `round`. -/
def roundTiesEven (a b : Nat) : Nat :=
  if 2 * (a % b) < b then a / b
  else if b < 2 * (a % b) then a / b + 1
  else if (a / b) % 2 = 0 then a / b else a / b + 1

/-- The percentage of line 201 in tenths of a percent:
`(article_count / total * 100).round(1)` scaled by 10. -/
def pctTenths (c t : Nat) : Nat := roundTiesEven (1000 * c) t

/-- Derived percentage of one row in percentage-stacked mode (lines 200-201).
When the row's per-language total is zero the division is 0/0, which the
numeric library leaves as a missing value (NaN), embedded as `none`. -/
def pctRounded (recs : List Record) (r : Record) : Option ℚ :=
  let t := langTotal recs r.language_code
  if t = 0 then none
  else some ((pctTenths r.article_count t : ℚ) / 10)

/-- Sum of the derived percentages over one language's rows (missing values
contributing 0). -/
def pctSum (recs : List Record) (l : String) : ℚ :=
  ((langRows recs l).map fun r => (pctRounded recs r).getD 0).sum

/-- Output of the chart section of the page: either an informational notice
or a chart specification. -/
inductive RenderOutput
  | notice (msg : String)
  | chart (mode : ChartMode) (data : List Record)
deriving Repr, DecidableEq

/-- Chart section of the script (lines 154-223): empty language selection and
empty subtopic selection are caught, in that order, before any chart is
built; otherwise a chart of the filtered data is produced. -/
def renderChartSection (selLangs selSubs : List String) (mode : ChartMode)
    (dfFiltered : List Record) : RenderOutput :=
  if selLangs.length = 0 then
    RenderOutput.notice "Please select at least one language to display."
  else if selSubs.length = 0 then
    RenderOutput.notice "Please select at least one subtopic to display."
  else RenderOutput.chart mode dfFiltered

/-- Whether a render output is the informational notice. -/
def isNotice : RenderOutput → Bool
  | RenderOutput.notice _ => true
  | RenderOutput.chart _ _ => false

/-- Whether an `Except` value is a success. -/
def exceptIsOk {ε α : Type} : Except ε α → Bool
  | Except.ok _ => true
  | Except.error _ => false

theorem mem_insertLe {α : Type} (le : α → α → Bool) (x b : α) :
    ∀ l : List α, b ∈ insertLe le x l ↔ b = x ∨ b ∈ l := by
  intro l
  induction l with
  | nil => simp [insertLe]
  | cons y ys ih =>
    by_cases h : le x y = true
    · rw [insertLe, if_pos h]
      simp only [List.mem_cons]
    · simp only [insertLe, if_neg h, List.mem_cons, ih]
      tauto

theorem perm_insertLe {α : Type} (le : α → α → Bool) (x : α) :
    ∀ l : List α, List.Perm (insertLe le x l) (x :: l) := by
  intro l
  induction l with
  | nil => simp [insertLe]
  | cons y ys ih =>
    by_cases h : le x y = true
    · simp [insertLe, h]
    · rw [insertLe, if_neg h]
      exact (ih.cons y).trans (List.Perm.swap x y ys)

theorem perm_isort {α : Type} (le : α → α → Bool) :
    ∀ l : List α, List.Perm (isort le l) l := by
  intro l
  induction l with
  | nil => simp [isort]
  | cons x xs ih =>
    exact (perm_insertLe le x (isort le xs)).trans (ih.cons x)

theorem mem_isort {α : Type} (le : α → α → Bool) (b : α) (l : List α) :
    b ∈ isort le l ↔ b ∈ l :=
  (perm_isort le l).mem_iff

theorem pairwise_insertLe {α : Type} (le : α → α → Bool) (S : α → α → Prop)
    (htot : ∀ a b : α, le a b = true ∨ le b a = true)
    (htr : ∀ a b c : α, le a b = true → le b c = true → le a c = true)
    (x : α) :
    ∀ l : List α,
      l.Pairwise (fun a b => le a b = true ∧ (le b a = true → S a b)) →
      (∀ b ∈ l, S x b) →
      (insertLe le x l).Pairwise (fun a b => le a b = true ∧ (le b a = true → S a b)) := by
  intro l
  induction l with
  | nil =>
    intro _ _
    simp [insertLe]
  | cons y ys ih =>
    intro hl hx
    rcases List.pairwise_cons.mp hl with ⟨hy, hys⟩
    by_cases h : le x y = true
    · rw [insertLe, if_pos h]
      refine List.pairwise_cons.mpr ⟨?_, hl⟩
      intro b hb
      rcases List.mem_cons.mp hb with hb | hb
      · subst hb
        exact ⟨h, fun _ => hx b (List.mem_cons_self _ _)⟩
      · exact ⟨htr x y b h (hy b hb).1, fun _ => hx b (List.mem_cons.mpr (Or.inr hb))⟩
    · rw [insertLe, if_neg h]
      refine List.pairwise_cons.mpr ⟨?_, ih hys fun b hb => hx b (List.mem_cons.mpr (Or.inr hb))⟩
      intro b hb
      rcases (mem_insertLe le x b ys).mp hb with hb | hb
      · rw [hb]
        rcases htot x y with hxy | hyx
        · exact absurd hxy h
        · exact ⟨hyx, fun hxy => absurd hxy h⟩
      · exact hy b hb

theorem pairwise_isort {α : Type} (le : α → α → Bool) (S : α → α → Prop)
    (htot : ∀ a b : α, le a b = true ∨ le b a = true)
    (htr : ∀ a b c : α, le a b = true → le b c = true → le a c = true) :
    ∀ l : List α, l.Pairwise S →
      (isort le l).Pairwise (fun a b => le a b = true ∧ (le b a = true → S a b)) := by
  intro l
  induction l with
  | nil =>
    intro _
    simp [isort]
  | cons x xs ih =>
    intro hl
    rcases List.pairwise_cons.mp hl with ⟨hx, hxs⟩
    exact pairwise_insertLe le S htot htr x (isort le xs) (ih hxs)
      fun b hb => hx b ((mem_isort le b xs).mp hb)

theorem valueDescLe_total (a b : String × Nat) :
    valueDescLe a b = true ∨ valueDescLe b a = true := by
  simp only [valueDescLe, decide_eq_true_iff]
  exact Nat.le_total b.2 a.2

theorem valueDescLe_trans (a b c : String × Nat)
    (h1 : valueDescLe a b = true) (h2 : valueDescLe b c = true) : valueDescLe a c = true := by
  simp only [valueDescLe, decide_eq_true_iff] at *
  exact le_trans h2 h1

theorem valueAscLe_total (a b : String × Nat) :
    valueAscLe a b = true ∨ valueAscLe b a = true := by
  simp only [valueAscLe, decide_eq_true_iff]
  exact Nat.le_total a.2 b.2

theorem valueAscLe_trans (a b c : String × Nat)
    (h1 : valueAscLe a b = true) (h2 : valueAscLe b c = true) : valueAscLe a c = true := by
  simp only [valueAscLe, decide_eq_true_iff] at *
  exact le_trans h1 h2

theorem pairwise_trivial {α : Type} (l : List α) : l.Pairwise fun _ _ => True := by
  induction l with
  | nil => exact List.Pairwise.nil
  | cons x xs ih => exact List.pairwise_cons.mpr ⟨fun _ _ => trivial, ih⟩

theorem roundTiesEven_err (a b : Nat) (hb : b ≠ 0) :
    |((roundTiesEven a b : ℕ) : ℚ) - (a : ℚ) / (b : ℚ)| ≤ 1 / 2 := by
  have hb0 : (0 : ℚ) < (b : ℚ) := by
    exact_mod_cast Nat.pos_of_ne_zero hb
  have hmod : b * (a / b) + a % b = a := Nat.div_add_mod a b
  have hrb : a % b < b := Nat.mod_lt a (Nat.pos_of_ne_zero hb)
  have haQ : (a : ℚ) = (b : ℚ) * ((a / b : ℕ) : ℚ) + ((a % b : ℕ) : ℚ) := by
    exact_mod_cast hmod.symm
  have hrbQ : ((a % b : ℕ) : ℚ) < (b : ℚ) := by exact_mod_cast hrb
  rw [roundTiesEven]
  split_ifs with h1 h2 h3
  · have h1Q : 2 * ((a % b : ℕ) : ℚ) < (b : ℚ) := by exact_mod_cast h1
    have hv : ((a / b : ℕ) : ℚ) - (a : ℚ) / (b : ℚ) = -(((a % b : ℕ) : ℚ) / (b : ℚ)) := by
      field_simp
      linarith
    rw [hv, abs_neg, abs_of_nonneg (by positivity), div_le_iff₀ hb0]
    linarith
  · have h2Q : (b : ℚ) < 2 * ((a % b : ℕ) : ℚ) := by exact_mod_cast h2
    have hv : (((a / b + 1 : ℕ)) : ℚ) - (a : ℚ) / (b : ℚ)
        = ((b : ℚ) - ((a % b : ℕ) : ℚ)) / (b : ℚ) := by
      push_cast
      field_simp
      linarith
    rw [hv, abs_of_nonneg (div_nonneg (by linarith) hb0.le), div_le_iff₀ hb0]
    linarith
  · have htie : 2 * (a % b) = b := le_antisymm (not_lt.mp h2) (not_lt.mp h1)
    have htieQ : 2 * ((a % b : ℕ) : ℚ) = (b : ℚ) := by exact_mod_cast htie
    have hv : ((a / b : ℕ) : ℚ) - (a : ℚ) / (b : ℚ) = -(((a % b : ℕ) : ℚ) / (b : ℚ)) := by
      field_simp
      linarith
    rw [hv, abs_neg, abs_of_nonneg (by positivity), div_le_iff₀ hb0]
    linarith
  · have htie : 2 * (a % b) = b := le_antisymm (not_lt.mp h2) (not_lt.mp h1)
    have htieQ : 2 * ((a % b : ℕ) : ℚ) = (b : ℚ) := by exact_mod_cast htie
    have hv : (((a / b + 1 : ℕ)) : ℚ) - (a : ℚ) / (b : ℚ)
        = ((b : ℚ) - ((a % b : ℕ) : ℚ)) / (b : ℚ) := by
      push_cast
      field_simp
      linarith
    rw [hv, abs_of_nonneg (div_nonneg (by linarith) hb0.le), div_le_iff₀ hb0]
    linarith

theorem sum_sub_abs_le {α : Type} (f g : α → ℚ) (e : ℚ) :
    ∀ L : List α, (∀ r ∈ L, |f r - g r| ≤ e) →
      |(L.map f).sum - (L.map g).sum| ≤ (L.length : ℚ) * e := by
  intro L
  induction L with
  | nil =>
    intro _
    simp
  | cons r L ih =>
    intro h
    have hr : |f r - g r| ≤ e := h r (List.mem_cons_self _ _)
    have hL : |(L.map f).sum - (L.map g).sum| ≤ (L.length : ℚ) * e :=
      ih fun x hx => h x (List.mem_cons.mpr (Or.inr hx))
    simp only [List.map_cons, List.sum_cons, List.length_cons]
    have hsplit : f r + (L.map f).sum - (g r + (L.map g).sum)
        = (f r - g r) + ((L.map f).sum - (L.map g).sum) := by ring
    rw [hsplit]
    calc |(f r - g r) + ((L.map f).sum - (L.map g).sum)|
        ≤ |f r - g r| + |(L.map f).sum - (L.map g).sum| := abs_add _ _
      _ ≤ e + (L.length : ℚ) * e := add_le_add hr hL
      _ = ((L.length + 1 : ℕ) : ℚ) * e := by push_cast; ring

theorem matchesAt_short (l s : String) :
    ∀ recs : List Record, (keyPairs recs).Nodup →
      matchesAt recs l s = [] ∨ ∃ r : Record, matchesAt recs l s = [r] := by
  intro recs
  induction recs with
  | nil =>
    intro _
    exact Or.inl rfl
  | cons r rest ih =>
    intro hnd
    have hnd' : ((r.language_code, r.subtopic) :: keyPairs rest).Nodup := by
      simpa [keyPairs] using hnd
    rcases List.pairwise_cons.mp hnd' with ⟨hkey, hrest⟩
    have hrestNd : (keyPairs rest).Nodup := hrest
    by_cases hp : (r.language_code == l && r.subtopic == s) = true
    · have heq : r.language_code = l ∧ r.subtopic = s := by
        simpa using hp
      have hempty : matchesAt rest l s = [] := by
        rw [matchesAt, List.filter_eq_nil_iff]
        intro x hx hxp
        have hxeq : x.language_code = l ∧ x.subtopic = s := by
          simpa using hxp
        have hxkey : (x.language_code, x.subtopic) ∈ keyPairs rest :=
          List.mem_map.mpr ⟨x, hx, rfl⟩
        rw [hxeq.1, hxeq.2, ← heq.1, ← heq.2] at hxkey
        exact hkey _ hxkey rfl
      refine Or.inr ⟨r, ?_⟩
      rw [matchesAt, List.filter_cons, if_pos hp]
      rw [matchesAt] at hempty
      rw [hempty]
    · have hstep : matchesAt (r :: rest) l s = matchesAt rest l s := by
        rw [matchesAt, List.filter_cons, if_neg hp]
        rfl
      rw [hstep]
      exact ih hrestNd

theorem filterRecords_nil_langs (recs : List Record) (selSubs : List String) :
    filterRecords recs [] selSubs = [] := by
  rw [filterRecords, List.filter_eq_nil_iff]
  intro r _ hp
  simp [List.contains] at hp

theorem filterRecords_nil_subs (recs : List Record) (selLangs : List String) :
    filterRecords recs selLangs [] = [] := by
  rw [filterRecords, List.filter_eq_nil_iff]
  intro r _ hp
  simp [List.contains] at hp

theorem availableLanguages_ne_nil (recs : List Record) (h : recs ≠ []) :
    availableLanguages recs ≠ [] := by
  cases recs with
  | nil => exact absurd rfl h
  | cons r rest =>
    rw [availableLanguages, List.map_cons, dedupFirst, dedupFirstAux]
    simp

theorem availableSubtopics_ne_nil (recs : List Record) (h : recs ≠ []) :
    availableSubtopics recs ≠ [] := by
  cases recs with
  | nil => exact absurd rfl h
  | cons r rest =>
    rw [availableSubtopics, List.map_cons, dedupFirst, dedupFirstAux]
    simp

/-- C1: a duplicate (language_code, subtopic) key pair among the records
reaching the pivot makes the pivot step fail with the duplicate-key error,
so that neither a wide frame nor the downstream detailed summary table is
ever produced from duplicate data. -/
theorem C1_pivot_duplicate_key_fails (recs : List Record) (h : hasDupKeys recs = true) :
    scriptTables recs = Except.error AppError.DuplicateKeyError := by
  rw [scriptTables, transformerPivot, if_pos h]
  rfl

/-- C1 witness: the spec's own example, two rows keyed (fr, Policy). -/
theorem C1_pivot_duplicate_key_fails_witness :
    hasDupKeys [⟨"fr", "Policy", 3⟩, ⟨"fr", "Policy", 4⟩] = true ∧
    scriptTables [⟨"fr", "Policy", 3⟩, ⟨"fr", "Policy", 4⟩]
      = Except.error AppError.DuplicateKeyError :=
  ⟨by decide, C1_pivot_duplicate_key_fails _ (by decide)⟩

/-- C2 counterexample: for a language whose filtered total is zero, the
derived percentage of its row is the missing value (NaN, embedded `none`),
not the value 0 the claim states. -/
theorem C2_zero_total_percentage_cex :
    langTotal [⟨"en", "Policy", 0⟩] "en" = 0 ∧
    pctRounded [⟨"en", "Policy", 0⟩] ⟨"en", "Policy", 0⟩ = none ∧
    pctRounded [⟨"en", "Policy", 0⟩] ⟨"en", "Policy", 0⟩ ≠ some 0 := by
  refine ⟨by decide, by decide, by decide⟩

/-- C2 amended: in percentage-stacked mode, a row of a language whose total
article count over the filtered rows is zero gets the missing value (NaN) as
its percentage — not 0 — and no failure is raised; such a row necessarily
has article_count zero, so the division behind the NaN is 0/0. -/
theorem C2_zero_total_percentage_nan (recs : List Record) (r : Record)
    (hmem : r ∈ recs) (h : langTotal recs r.language_code = 0) :
    pctRounded recs r = none ∧ r.article_count = 0 := by
  constructor
  · simp only [pctRounded, h, if_pos]
  · have hr : r ∈ langRows recs r.language_code :=
      List.mem_filter.mpr ⟨hmem, by simp⟩
    have hmm : r.article_count ∈ (langRows recs r.language_code).map (·.article_count) :=
      List.mem_map.mpr ⟨r, hr, rfl⟩
    rw [langTotal] at h
    exact List.sum_eq_zero_iff.mp h _ hmm

/-- C2 witness: concrete zero-total language. -/
theorem C2_zero_total_percentage_nan_witness :
    pctRounded [⟨"en", "Policy", 0⟩] ⟨"en", "Policy", 0⟩ = none ∧
    (⟨"en", "Policy", 0⟩ : Record).article_count = 0 :=
  C2_zero_total_percentage_nan [⟨"en", "Policy", 0⟩] ⟨"en", "Policy", 0⟩ (by decide) (by decide)

/-- C3 counterexample: a selected language outside the canonical top-10 list
is dropped from the default ordering (its rows get no ordinal category),
rather than being appended after the canonical languages. -/
theorem C3_default_order_drops_unknown_cex :
    "xx" ∈ ["en", "xx"] ∧ "xx" ∉ langOrderDefault ["en", "xx"] ∧
    langOrderDefault ["en", "xx"] = ["en"] := by
  refine ⟨by decide, by decide, by decide⟩

/-- C3 amended: under the default sort mode the language order is exactly the
canonical sequence restricted to the selected languages — membership is
canonical-and-selected, and the order follows the canonical ranks — while
selected languages outside the canonical list are excluded, not appended. -/
theorem C3_default_order_canonical (selected : List String) :
    (∀ l, l ∈ langOrderDefault selected ↔ (l ∈ top10_langs ∧ l ∈ selected)) ∧
    (langOrderDefault selected).Pairwise
      (fun a b => top10_langs.indexOf a < top10_langs.indexOf b) := by
  constructor
  · intro l
    rw [langOrderDefault, List.mem_filter]
    simp
  · have htop : top10_langs.Pairwise
        (fun a b => top10_langs.indexOf a < top10_langs.indexOf b) := by decide
    exact htop.filter _

/-- C4 counterexample: an unrecognized sort-option string is silently treated
as the default order, and an unrecognized chart-type string is silently
treated as percentage-stacked; no invalid-option failure exists in the
dispatch. -/
theorem C4_invalid_option_silent_cex :
    resolveSortMode "Total" = SortMode.Default ∧
    resolveChartMode "Pie Chart" = ChartMode.PercentStacked := by
  refine ⟨by decide, by decide⟩

/-- C4 amended: every sort-option string other than the two recognized
total-sort options falls through to default ordering, and every chart-type
string other than the two recognized bar options falls through to
percentage-stacked; no error is raised for unrecognized values. -/
theorem C4_unrecognized_modes_fall_back (s c : String)
    (hs1 : s ≠ "Total Articles (Descending)") (hs2 : s ≠ "Total Articles (Ascending)")
    (hc1 : c ≠ "Stacked Bar") (hc2 : c ≠ "Grouped Bar") :
    resolveSortMode s = SortMode.Default ∧ resolveChartMode c = ChartMode.PercentStacked := by
  constructor
  · rw [resolveSortMode, if_neg hs1, if_neg hs2]
  · rw [resolveChartMode, if_neg hc1, if_neg hc2]

/-- C4 witness: a concrete unrecognized selector string. -/
theorem C4_unrecognized_modes_fall_back_witness :
    resolveSortMode "bogus" = SortMode.Default ∧
    resolveChartMode "bogus" = ChartMode.PercentStacked :=
  C4_unrecognized_modes_fall_back "bogus" "bogus" (by decide) (by decide) (by decide) (by decide)

/-- C8 counterexample: for a code absent from the language catalog, the chart
axis label produced by the dictionary `.map` is the missing value, not the
raw code. -/
theorem C8_chart_label_missing_cex :
    chartLanguageName "xx" = none ∧ chartLanguageName "xx" ≠ some "xx" := by
  refine ⟨by decide, by decide⟩

/-- C8 amended: for a language code absent from the catalog, the selector
option label and the summary-table row label fall back to the raw code, but
the chart axis language name becomes a missing value (NaN) instead. -/
theorem C8_unknown_language_display (x : String) (h : lang_map.lookup x = none) :
    selectorOptionLabel x = x ++ " (" ++ x ++ ")" ∧
    summaryRowLabel x = x ++ " (" ++ x ++ ")" ∧
    chartLanguageName x = none := by
  refine ⟨?_, ?_, h⟩
  · rw [selectorOptionLabel, displayName, h]
    rfl
  · rw [summaryRowLabel, displayName, h]
    rfl

/-- C8 witness: concrete unknown code. -/
theorem C8_unknown_language_display_witness :
    selectorOptionLabel "xx" = "xx" ++ " (" ++ "xx" ++ ")" ∧
    summaryRowLabel "xx" = "xx" ++ " (" ++ "xx" ++ ")" ∧
    chartLanguageName "xx" = none :=
  C8_unknown_language_display "xx" (by decide)

/-- C9: an empty selected-language or selected-subtopic set short-circuits to
the informational notice instead of a chart, and the table pipeline on the
(necessarily empty) filtered records succeeds — no exception, no wide frame
presented as the result. -/
theorem C9_empty_selection_notice (recs : List Record) (selLangs selSubs : List String)
    (mode : ChartMode) (h : selLangs = [] ∨ selSubs = []) :
    isNotice (renderChartSection selLangs selSubs mode
      (filterRecords recs selLangs selSubs)) = true ∧
    exceptIsOk (scriptTables (filterRecords recs selLangs selSubs)) = true := by
  have hfil : filterRecords recs selLangs selSubs = [] := by
    rcases h with h | h
    · rw [h]
      exact filterRecords_nil_langs recs selSubs
    · rw [h]
      exact filterRecords_nil_subs recs selLangs
  constructor
  · rcases h with h | h
    · rw [h]
      rfl
    · rw [h]
      by_cases hl : selLangs.length = 0
      · rw [renderChartSection, if_pos hl]
        rfl
      · rw [renderChartSection, if_neg hl]
        rfl
  · rw [hfil]
    rfl

/-- C9 witness: zero subtopics selected yields the notice and a successful
(empty) table pipeline. -/
theorem C9_empty_selection_notice_witness :
    isNotice (renderChartSection ["en"] [] ChartMode.Stacked
      (filterRecords [⟨"en", "Policy", 5⟩] ["en"] [])) = true ∧
    exceptIsOk (scriptTables (filterRecords [⟨"en", "Policy", 5⟩] ["en"] [])) = true :=
  C9_empty_selection_notice [⟨"en", "Policy", 5⟩] ["en"] [] ChartMode.Stacked (Or.inr rfl)

/-- C10 counterexample: on an empty loaded record set, the "All Languages"
selection resolves to the empty language set, so the empty-selection notice
branch is reached through the selector interface. -/
theorem C10_empty_data_cex :
    resolveLanguageSelection [] "All Languages" = [] ∧
    isNotice (renderChartSection (resolveLanguageSelection [] "All Languages")
      (resolveSubtopicSelection [] "All Subtopics") ChartMode.Stacked []) = true := by
  refine ⟨by decide, by decide⟩

/-- C10 amended: for every NON-EMPTY loaded record set, each selector
resolution (the "All" sentinel or a single choice) is non-empty, so the
empty-selection notice branches are unreachable through the single-choice
selector interface. -/
theorem C10_selector_nonempty (recs : List Record) (selLang selSub : String)
    (mode : ChartMode) (h : recs ≠ []) :
    resolveLanguageSelection recs selLang ≠ [] ∧
    resolveSubtopicSelection recs selSub ≠ [] ∧
    isNotice (renderChartSection (resolveLanguageSelection recs selLang)
      (resolveSubtopicSelection recs selSub) mode
      (filterRecords recs (resolveLanguageSelection recs selLang)
        (resolveSubtopicSelection recs selSub))) = false := by
  have hlang : resolveLanguageSelection recs selLang ≠ [] := by
    rw [resolveLanguageSelection]
    by_cases hs : selLang = "All Languages"
    · rw [if_pos hs]
      exact availableLanguages_ne_nil recs h
    · rw [if_neg hs]
      simp
  have hsub : resolveSubtopicSelection recs selSub ≠ [] := by
    rw [resolveSubtopicSelection]
    by_cases hs : selSub = "All Subtopics"
    · rw [if_pos hs]
      exact availableSubtopics_ne_nil recs h
    · rw [if_neg hs]
      simp
  refine ⟨hlang, hsub, ?_⟩
  rw [renderChartSection, if_neg (by simpa [List.length_eq_zero] using hlang),
    if_neg (by simpa [List.length_eq_zero] using hsub)]
  rfl

/-- C10 witness: a non-empty record set with the "All" selections. -/
theorem C10_selector_nonempty_witness :
    resolveLanguageSelection [⟨"en", "Policy", 5⟩] "All Languages" ≠ [] ∧
    resolveSubtopicSelection [⟨"en", "Policy", 5⟩] "All Subtopics" ≠ [] ∧
    isNotice (renderChartSection
      (resolveLanguageSelection [⟨"en", "Policy", 5⟩] "All Languages")
      (resolveSubtopicSelection [⟨"en", "Policy", 5⟩] "All Subtopics") ChartMode.Grouped
      (filterRecords [⟨"en", "Policy", 5⟩]
        (resolveLanguageSelection [⟨"en", "Policy", 5⟩] "All Languages")
        (resolveSubtopicSelection [⟨"en", "Policy", 5⟩] "All Subtopics"))) = false :=
  C10_selector_nonempty [⟨"en", "Policy", 5⟩] "All Languages" "All Subtopics"
    ChartMode.Grouped (by decide)

theorem charListLe_total : ∀ xs ys : List Char, charListLe xs ys = true ∨ charListLe ys xs = true := by
  intro xs
  induction xs with
  | nil =>
    intro ys
    exact Or.inl rfl
  | cons x xs ih =>
    intro ys
    cases ys with
    | nil => exact Or.inr rfl
    | cons y ys =>
      by_cases h1 : x.toNat < y.toNat
      · left
        simp only [charListLe, if_pos h1]
      · by_cases h2 : y.toNat < x.toNat
        · right
          simp only [charListLe, if_pos h2]
        · rcases ih ys with h | h
          · left
            simp only [charListLe, if_neg h1, if_neg h2]
            exact h
          · right
            simp only [charListLe, if_neg h1, if_neg h2]
            exact h

theorem charListLe_trans : ∀ xs ys zs : List Char,
    charListLe xs ys = true → charListLe ys zs = true → charListLe xs zs = true := by
  intro xs
  induction xs with
  | nil =>
    intro ys zs _ _
    rfl
  | cons x xs ih =>
    intro ys zs h1 h2
    cases ys with
    | nil => exact absurd h1 (by simp [charListLe])
    | cons y ys =>
      cases zs with
      | nil => exact absurd h2 (by simp [charListLe])
      | cons z zs =>
        simp only [charListLe] at h1 h2 ⊢
        by_cases hxy : x.toNat < y.toNat
        · by_cases hyz : y.toNat < z.toNat
          · rw [if_pos (Nat.lt_trans hxy hyz)]
          · rw [if_neg hyz] at h2
            by_cases hzy : z.toNat < y.toNat
            · rw [if_pos hzy] at h2
              exact absurd h2 (by simp)
            · have hyzeq : y.toNat = z.toNat := Nat.le_antisymm (Nat.not_lt.mp hzy) (Nat.not_lt.mp hyz)
              rw [if_pos (hyzeq ▸ hxy)]
        · rw [if_neg hxy] at h1
          by_cases hyx : y.toNat < x.toNat
          · rw [if_pos hyx] at h1
            exact absurd h1 (by simp)
          · have hxyeq : x.toNat = y.toNat := Nat.le_antisymm (Nat.not_lt.mp hyx) (Nat.not_lt.mp hxy)
            rw [if_neg hyx] at h1
            by_cases hyz : y.toNat < z.toNat
            · rw [if_pos (hxyeq ▸ hyz)]
            · rw [if_neg hyz] at h2
              by_cases hzy : z.toNat < y.toNat
              · rw [if_pos hzy] at h2
                exact absurd h2 (by simp)
              · have hyzeq : y.toNat = z.toNat :=
                  Nat.le_antisymm (Nat.not_lt.mp hzy) (Nat.not_lt.mp hyz)
                rw [if_neg hzy] at h2
                rw [if_neg (hxyeq ▸ hyz), if_neg (by rw [hxyeq, hyzeq] at hxy ⊢; exact hxy)]
                exact ih ys zs h1 h2

theorem strLeB_total (a b : String) : strLeB a b = true ∨ strLeB b a = true :=
  charListLe_total a.data b.data

theorem strLeB_trans (a b c : String) (h1 : strLeB a b = true) (h2 : strLeB b c = true) :
    strLeB a c = true :=
  charListLe_trans a.data b.data c.data h1 h2

/-- C5 counterexample: two languages with equal filtered totals come out of
the descending total sort in alphabetical key order (the grouping operation
sorts its string keys), not in catalog order — the catalog lists en before
ar, yet the produced order is [ar, en]. -/
theorem C5_tie_break_cex :
    langTotal [⟨"en", "Policy", 50⟩, ⟨"ar", "Policy", 50⟩] "en"
      = langTotal [⟨"en", "Policy", 50⟩, ⟨"ar", "Policy", 50⟩] "ar" ∧
    langOrderTotalDesc [⟨"en", "Policy", 50⟩, ⟨"ar", "Policy", 50⟩] = ["ar", "en"] ∧
    langOrderTotalDesc [⟨"en", "Policy", 50⟩, ⟨"ar", "Policy", 50⟩] ≠ ["en", "ar"] := by
  refine ⟨by decide, by decide, by decide⟩

/-- C5 amended: under the total sorts the language/total pairs are a
permutation of the grouped totals, ordered by total (descending resp.
ascending), with ties between equal totals in ascending lexicographic order
of the language code — not in catalog order. -/
theorem C5_total_sort_order (recs : List Record) :
    List.Perm (orderedTotalsDesc recs) (groupTotals recs) ∧
    (orderedTotalsDesc recs).Pairwise
      (fun a b => b.2 ≤ a.2 ∧ (a.2 = b.2 → strLeB a.1 b.1 = true)) ∧
    List.Perm (orderedTotalsAsc recs) (groupTotals recs) ∧
    (orderedTotalsAsc recs).Pairwise
      (fun a b => a.2 ≤ b.2 ∧ (a.2 = b.2 → strLeB a.1 b.1 = true)) := by
  have hkeys : (isort strLeB (availableLanguages recs)).Pairwise
      (fun a b => strLeB a b = true) :=
    (pairwise_isort strLeB (fun _ _ => True) strLeB_total strLeB_trans
      (availableLanguages recs) (pairwise_trivial _)).imp fun h => h.1
  have hS : (groupTotals recs).Pairwise (fun a b => strLeB a.1 b.1 = true) := by
    rw [groupTotals, List.pairwise_map]
    exact hkeys
  refine ⟨perm_isort _ _, ?_, perm_isort _ _, ?_⟩
  · refine (pairwise_isort valueDescLe (fun a b => strLeB a.1 b.1 = true)
      valueDescLe_total valueDescLe_trans (groupTotals recs) hS).imp ?_
    rintro a b ⟨h1, h2⟩
    have h1' : b.2 ≤ a.2 := by simpa [valueDescLe] using h1
    refine ⟨h1', fun heq => h2 ?_⟩
    simp [valueDescLe, heq]
  · refine (pairwise_isort valueAscLe (fun a b => strLeB a.1 b.1 = true)
      valueAscLe_total valueAscLe_trans (groupTotals recs) hS).imp ?_
    rintro a b ⟨h1, h2⟩
    have h1' : a.2 ≤ b.2 := by simpa [valueAscLe] using h1
    refine ⟨h1', fun heq => h2 ?_⟩
    simp [valueAscLe, heq]

theorem keyPairs_filter_nodup (recs : List Record) (selL selS : List String)
    (h : (keyPairs recs).Nodup) : (keyPairs (filterRecords recs selL selS)).Nodup := by
  have hsub : List.Sublist (filterRecords recs selL selS) recs := List.filter_sublist _
  simp only [keyPairs] at h ⊢
  exact (hsub.map fun r => (r.language_code, r.subtopic)).nodup h

theorem mem_matchesAt (recs : List Record) (l s : String) (r : Record) :
    r ∈ matchesAt recs l s ↔ r ∈ recs ∧ r.language_code = l ∧ r.subtopic = s := by
  rw [matchesAt, List.mem_filter]
  simp

theorem wideCell_summary_cell (recs : List Record) (hnd : (keyPairs recs).Nodup)
    (l s : String) : pivotTableCell recs l s = (wideCell recs l s : ℚ) := by
  rcases matchesAt_short l s recs hnd with hc | ⟨r0, hc⟩
  · simp [pivotTableCell, wideCell, hc]
  · simp [pivotTableCell, wideCell, hc]

/-- C6 counterexample: a duplicate-free filtered record with article count 0
contributes its key pair to the filtered pair set, yet its wide-frame cell
is 0, so the set of non-zero cells is strictly smaller than the set of
filtered pairs. -/
theorem C6_zero_count_pair_cex :
    (keyPairs (filterRecords [⟨"en", "Policy", 0⟩] ["en"] ["Policy"])).Nodup ∧
    ("en", "Policy") ∈ keyPairs (filterRecords [⟨"en", "Policy", 0⟩] ["en"] ["Policy"]) ∧
    wideCell (filterRecords [⟨"en", "Policy", 0⟩] ["en"] ["Policy"]) "en" "Policy" = 0 := by
  refine ⟨by decide, by decide, by decide⟩

/-- C6 amended: over duplicate-free records, a wide-frame cell is non-zero
exactly at the filtered pairs carrying a NON-ZERO article count, every cell
outside the filtered pairs is exactly 0 (zero-fill), and the summary table's
Total column is the row-wise sum of the zero-filled wide frame before any
percentage derivation. -/
theorem C6_wide_frame_cells (recs : List Record) (selLangs selSubs : List String)
    (hnd : (keyPairs recs).Nodup) (l s : String) :
    (wideCell (filterRecords recs selLangs selSubs) l s ≠ 0 ↔
      ∃ r ∈ filterRecords recs selLangs selSubs,
        r.language_code = l ∧ r.subtopic = s ∧ r.article_count ≠ 0) ∧
    ((¬ ∃ r ∈ filterRecords recs selLangs selSubs,
        r.language_code = l ∧ r.subtopic = s) →
      wideCell (filterRecords recs selLangs selSubs) l s = 0) ∧
    summaryTotal (filterRecords recs selLangs selSubs) l =
      ((wideCols (filterRecords recs selLangs selSubs)).map
        fun s2 => (wideCell (filterRecords recs selLangs selSubs) l s2 : ℚ)).sum := by
  set F := filterRecords recs selLangs selSubs with hF
  have hndF : (keyPairs F).Nodup := keyPairs_filter_nodup recs selLangs selSubs hnd
  refine ⟨?_, ?_, ?_⟩
  · rcases matchesAt_short l s F hndF with hc | ⟨r0, hc⟩
    · constructor
      · intro hne
        exact absurd (by simp [wideCell, hc]) hne
      · rintro ⟨r, hrF, h1, h2, h3⟩
        have hm : r ∈ matchesAt F l s := (mem_matchesAt F l s r).mpr ⟨hrF, h1, h2⟩
        rw [hc] at hm
        exact absurd hm (List.not_mem_nil r)
    · have hr0 : r0 ∈ F ∧ r0.language_code = l ∧ r0.subtopic = s :=
        (mem_matchesAt F l s r0).mp (hc ▸ List.mem_singleton_self r0)
      have hcell : wideCell F l s = r0.article_count := by simp [wideCell, hc]
      rw [hcell]
      constructor
      · intro h3
        exact ⟨r0, hr0.1, hr0.2.1, hr0.2.2, h3⟩
      · rintro ⟨r, hrF, h1, h2, h3⟩
        have hm : r ∈ matchesAt F l s := (mem_matchesAt F l s r).mpr ⟨hrF, h1, h2⟩
        rw [hc, List.mem_singleton] at hm
        rw [← hm]
        exact h3
  · intro hne
    rcases matchesAt_short l s F hndF with hc | ⟨r0, hc⟩
    · simp [wideCell, hc]
    · exfalso
      have hr0 : r0 ∈ F ∧ r0.language_code = l ∧ r0.subtopic = s :=
        (mem_matchesAt F l s r0).mp (hc ▸ List.mem_singleton_self r0)
      exact hne ⟨r0, hr0.1, hr0.2.1, hr0.2.2⟩
  · rw [summaryTotal]
    refine congrArg List.sum (List.map_congr_left ?_)
    intro s2 _
    exact wideCell_summary_cell F hndF l s2

/-- C6 witness: a one-record selection evaluated at its own pair. -/
theorem C6_wide_frame_cells_witness :
    (wideCell (filterRecords [⟨"en", "Policy", 3⟩] ["en"] ["Policy"]) "en" "Policy" ≠ 0 ↔
      ∃ r ∈ filterRecords [⟨"en", "Policy", 3⟩] ["en"] ["Policy"],
        r.language_code = "en" ∧ r.subtopic = "Policy" ∧ r.article_count ≠ 0) ∧
    ((¬ ∃ r ∈ filterRecords [⟨"en", "Policy", 3⟩] ["en"] ["Policy"],
        r.language_code = "en" ∧ r.subtopic = "Policy") →
      wideCell (filterRecords [⟨"en", "Policy", 3⟩] ["en"] ["Policy"]) "en" "Policy" = 0) ∧
    summaryTotal (filterRecords [⟨"en", "Policy", 3⟩] ["en"] ["Policy"]) "en" =
      ((wideCols (filterRecords [⟨"en", "Policy", 3⟩] ["en"] ["Policy"])).map
        fun s2 => (wideCell (filterRecords [⟨"en", "Policy", 3⟩] ["en"] ["Policy"]) "en" s2 : ℚ)).sum :=
  C6_wide_frame_cells [⟨"en", "Policy", 3⟩] ["en"] ["Policy"] (by decide) "en" "Policy"

theorem cast_sum_nat (L : List Record) (g : Record → Nat) :
    (L.map fun r => ((g r : ℕ) : ℚ)).sum = (((L.map g).sum : ℕ) : ℚ) := by
  induction L with
  | nil => simp
  | cons r L ih =>
    simp only [List.map_cons, List.sum_cons, ih]
    push_cast
    ring

theorem langRows_code (recs : List Record) (l : String) :
    ∀ r ∈ langRows recs l, r.language_code = l := by
  intro r hr
  have hm := List.mem_filter.mp hr
  simpa using hm.2

/-- C7 amended: for every language with non-zero filtered total, the sum of
its rounded per-subtopic percentages differs from 100 by at most 0.05 per
row of that language (so at most 0.25 for the five canonical subtopics) —
the ±0.1 tolerance of the claim is too tight. -/
theorem C7_percent_sum_bound (recs : List Record) (l : String)
    (h : langTotal recs l ≠ 0) :
    |pctSum recs l - 100| ≤ ((langRows recs l).length : ℚ) * (1 / 20) := by
  have htQ : ((langTotal recs l : ℕ) : ℚ) ≠ 0 := Nat.cast_ne_zero.mpr h
  have hmap : (langRows recs l).map (fun r => (pctRounded recs r).getD 0)
      = (langRows recs l).map
          (fun r => ((pctTenths r.article_count (langTotal recs l) : ℕ) : ℚ) / 10) := by
    refine List.map_congr_left ?_
    intro r hr
    simp [pctRounded, langRows_code recs l r hr, h]
  have hsum100 : ((langRows recs l).map
      (fun r => (100 : ℚ) * (r.article_count : ℚ) / ((langTotal recs l : ℕ) : ℚ))).sum
      = 100 := by
    have hfun : (fun r : Record =>
          (100 : ℚ) * (r.article_count : ℚ) / ((langTotal recs l : ℕ) : ℚ))
        = fun r : Record =>
          ((100 : ℚ) / ((langTotal recs l : ℕ) : ℚ)) * ((r.article_count : ℕ) : ℚ) := by
      funext r
      ring
    rw [hfun, List.sum_map_mul_left, cast_sum_nat]
    have hdef : ((langRows recs l).map fun r => r.article_count).sum = langTotal recs l := rfl
    rw [hdef, div_mul_cancel₀ _ htQ]
  have hbound : ∀ r ∈ langRows recs l,
      |((pctTenths r.article_count (langTotal recs l) : ℕ) : ℚ) / 10
        - (100 : ℚ) * (r.article_count : ℚ) / ((langTotal recs l : ℕ) : ℚ)| ≤ 1 / 20 := by
    intro r hr
    have herr := roundTiesEven_err (1000 * r.article_count) (langTotal recs l) h
    have hg : (100 : ℚ) * (r.article_count : ℚ) / ((langTotal recs l : ℕ) : ℚ)
        = (((1000 * r.article_count : ℕ) : ℚ) / ((langTotal recs l : ℕ) : ℚ)) / 10 := by
      push_cast
      ring
    rw [pctTenths, hg, div_sub_div_same, abs_div]
    rw [abs_of_pos (by norm_num : (0 : ℚ) < 10)]
    calc |((roundTiesEven (1000 * r.article_count) (langTotal recs l) : ℕ) : ℚ)
          - ((1000 * r.article_count : ℕ) : ℚ) / ((langTotal recs l : ℕ) : ℚ)| / 10
        ≤ (1 / 2) / 10 := by gcongr
      _ = 1 / 20 := by norm_num
  rw [pctSum, hmap]
  calc |((langRows recs l).map
          (fun r => ((pctTenths r.article_count (langTotal recs l) : ℕ) : ℚ) / 10)).sum - 100|
      = |((langRows recs l).map
          (fun r => ((pctTenths r.article_count (langTotal recs l) : ℕ) : ℚ) / 10)).sum
        - ((langRows recs l).map
          (fun r => (100 : ℚ) * (r.article_count : ℚ) / ((langTotal recs l : ℕ) : ℚ))).sum| := by
        rw [hsum100]
    _ ≤ ((langRows recs l).length : ℚ) * (1 / 20) :=
        sum_sub_abs_le _ _ (1 / 20) (langRows recs l) hbound

/-- C7 witness: the spec's example, counts 30/70 for language es. -/
theorem C7_percent_sum_bound_witness :
    |pctSum [⟨"es", "Policy", 30⟩, ⟨"es", "Science", 70⟩] "es" - 100|
      ≤ ((langRows [⟨"es", "Policy", 30⟩, ⟨"es", "Science", 70⟩] "es").length : ℚ) * (1 / 20) :=
  C7_percent_sum_bound [⟨"es", "Policy", 30⟩, ⟨"es", "Science", 70⟩] "es" (by decide)

/-- C7 counterexample: language es with counts 501, 501, 501, 501, 496
(total 2500) gives rounded percentages 20.0, 20.0, 20.0, 20.0, 19.8, whose
sum 99.8 misses 100 by 0.2, outside the claimed ±0.1 tolerance. -/
theorem C7_tolerance_cex :
    langTotal [⟨"es", "Policy", 501⟩, ⟨"es", "Adaptation", 501⟩, ⟨"es", "Environment", 501⟩,
      ⟨"es", "Science", 501⟩, ⟨"es", "Sustainability", 496⟩] "es" ≠ 0 ∧
    ¬(|pctSum [⟨"es", "Policy", 501⟩, ⟨"es", "Adaptation", 501⟩, ⟨"es", "Environment", 501⟩,
      ⟨"es", "Science", 501⟩, ⟨"es", "Sustainability", 496⟩] "es" - 100| ≤ 1 / 10) := by
  have htot : langTotal [⟨"es", "Policy", 501⟩, ⟨"es", "Adaptation", 501⟩,
      ⟨"es", "Environment", 501⟩, ⟨"es", "Science", 501⟩,
      ⟨"es", "Sustainability", 496⟩] "es" = 2500 := by decide
  have hrows : langRows [⟨"es", "Policy", 501⟩, ⟨"es", "Adaptation", 501⟩,
      ⟨"es", "Environment", 501⟩, ⟨"es", "Science", 501⟩,
      ⟨"es", "Sustainability", 496⟩] "es"
      = [⟨"es", "Policy", 501⟩, ⟨"es", "Adaptation", 501⟩, ⟨"es", "Environment", 501⟩,
        ⟨"es", "Science", 501⟩, ⟨"es", "Sustainability", 496⟩] := by decide
  have e1 : pctTenths 501 2500 = 200 := by decide
  have e2 : pctTenths 496 2500 = 198 := by decide
  have hsum : pctSum [⟨"es", "Policy", 501⟩, ⟨"es", "Adaptation", 501⟩,
      ⟨"es", "Environment", 501⟩, ⟨"es", "Science", 501⟩,
      ⟨"es", "Sustainability", 496⟩] "es" = 499 / 5 := by
    rw [pctSum, hrows]
    simp only [List.map_cons, List.map_nil, List.sum_cons, List.sum_nil]
    simp only [pctRounded, htot, e1, e2]
    norm_num
  refine ⟨by rw [htot]; norm_num, ?_⟩
  rw [hsum, show ((499 : ℚ) / 5 - 100) = -(1 / 5) by norm_num, abs_neg,
    abs_of_nonneg (by norm_num : (0 : ℚ) ≤ 1 / 5)]
  norm_num
